import Mathlib

/-!
Verification of the scoring core of src/analysis/report.py.

The Python module is shallowly embedded: strings are lists of characters,
Python dicts (which preserve insertion order) are association lists with
distinct keys, and code that can raise is modelled with Option/Except.
The floating-point percentage computation int((c / total) * 100) is
modelled with exact binary64 round-to-nearest-even arithmetic.
-/

namespace ReportPy

/-- Python strings are modelled as lists of characters. -/
abbrev PyStr := List Char

/-- Lowercasing a string character by character, modelling str.lower()
(ASCII letters; the claims do not depend on the exact character table). -/
def lowerStr (s : PyStr) : PyStr := s.map Char.toLower

/-- Does the pattern occur at the very start of the text?  Helper for the
embedding of Python's substring operator. -/
def isSubAt : PyStr → PyStr → Bool
  | [], _ => true
  | _ :: _, [] => false
  | p :: ps, c :: cs => decide (p = c) && isSubAt ps cs

/-- Python's substring test: "pat in text" holds iff pat occurs at some
position of text.  The empty pattern occurs in every text. -/
def strIn (pat : PyStr) : PyStr → Bool
  | [] => isSubAt pat []
  | c :: rest => isSubAt pat (c :: rest) || strIn pat rest

/-- Scanning loop of Python's str.count for a nonempty pattern p :: ps:
at each position, if the pattern matches, count it and resume after the
match (non-overlapping); otherwise advance one character.  The fuel
argument only makes the recursion structural: every step consumes at
least one character, so any fuel at least the text length gives the
scan's true value. -/
def pyCountAux (p : Char) (ps : PyStr) : Nat → PyStr → Nat
  | 0, _ => 0
  | _, [] => 0
  | fuel + 1, c :: rest =>
    if isSubAt (p :: ps) (c :: rest) then 1 + pyCountAux p ps fuel (List.drop ps.length rest)
    else pyCountAux p ps fuel rest

/-- text.count(pat) in Python: the number of non-overlapping occurrences
of pat in text, scanning left to right.  Python defines the count of the
empty pattern as len(text) + 1. -/
def pyCount (pat text : PyStr) : Nat :=
  match pat with
  | [] => text.length + 1
  | p :: ps => pyCountAux p ps text.length text

/-- Python's str.split() splits on runs of whitespace and drops empty
fragments; cur accumulates the current fragment in reverse. -/
def splitWsAux : PyStr → PyStr → List PyStr
  | cur, [] => if cur = [] then [] else [cur.reverse]
  | cur, c :: rest =>
    if c.isWhitespace then
      if cur = [] then splitWsAux [] rest else cur.reverse :: splitWsAux [] rest
    else splitWsAux (c :: cur) rest

/-- str.split() with no separator argument. -/
def splitWs (s : PyStr) : List PyStr := splitWsAux [] s

/-- A raw answer as accepted by normalize: a plain string or a list of
string fragments. -/
inductive RawText where
  | str (s : PyStr)
  | list (xs : List PyStr)

/-- normalize from report.py: a falsy input gives "", a list is joined
with single spaces, and the result is lowercased.  (For the empty string
and the empty list the falsy branch coincides with lowercasing/joining
the empty input, so both branches are written out exactly as in Python.) -/
def normalize : RawText → PyStr
  | RawText.str s => if s.isEmpty then [] else lowerStr s
  | RawText.list xs => if xs.isEmpty then [] else lowerStr (List.intercalate [' '] xs)

/-- contains_any from report.py. -/
def contains_any (text : PyStr) (keywords : List PyStr) : Bool :=
  keywords.any (fun k => strIn k text)

/-- The six static persona keywords of report.py, in source order. -/
def staticPersonaTerms : List PyStr :=
  [ "strategy".toList, "roadmap".toList, "architecture".toList,
    "planning".toList, "analysis".toList, "decision".toList ]

/-- The persona keyword list [p.lower(), p.split()[0].lower(), ...static].
Building it in Python evaluates p.split()[0], which raises IndexError when
the persona splits into no words; that failure is modelled as none. -/
def personaKeywords (p : PyStr) : Option (List PyStr) :=
  match splitWs p with
  | [] => none
  | w :: _ => some (lowerStr p :: lowerStr w :: staticPersonaTerms)

/-- t.lower().split()[:4], the topic keyword list of report.py. -/
def topicKeywords (t : PyStr) : List PyStr := (splitWs (lowerStr t)).take 4

/-- Ordered association list update, modelling dict[k] = f(dict[k]) on a
dict that already has key k (updates the first matching entry in place). -/
def updateAssoc (k : PyStr) (f : Nat → Nat) : List (PyStr × Nat) → List (PyStr × Nat)
  | [] => []
  | kv :: rest => if kv.1 = k then (kv.1, f kv.2) :: rest else kv :: updateAssoc k f rest

/-- First-occurrence deduplication helper; seen holds keys already kept. -/
def dedupFirstAux (seen : List PyStr) : List PyStr → List PyStr
  | [] => []
  | x :: xs => if x ∈ seen then dedupFirstAux seen xs else x :: dedupFirstAux (x :: seen) xs

/-- The distinct elements of a list, keeping the first occurrence of each,
in order: the key sequence of a Python dict comprehension over the list. -/
def dedupFirst (l : List PyStr) : List PyStr := dedupFirstAux [] l

/-- The key/value pairs of a dict whose keys are the given (distinct)
list and whose values are given pointwise. -/
def mapCnt (keys : List PyStr) (g : PyStr → Nat) : List (PyStr × Nat) :=
  keys.map (fun k => (k, g k))

/-- The zero-initialised counter dict {k: 0 for k in keys}. -/
def initCounts (keys : List PyStr) : List (PyStr × Nat) :=
  mapCnt (dedupFirst keys) (fun _ => 0)

/-- sorted(items, key=lambda x: x[1], reverse=True): Python's sort is
stable, and stable descending-by-count sorting is insertion sort with the
relation "left count at least right count" (ties keep the earlier entry
first, exactly as orderedInsert inserts the earlier element before a tie). -/
def sortDesc (l : List (PyStr × Nat)) : List (PyStr × Nat) :=
  List.insertionSort (fun x y => y.2 ≤ x.2) l

/-- Rounding num/den (den positive) to the nearest integer, ties to even:
the rounding step of IEEE-754 binary64 arithmetic. -/
def nearestEven (num den : Nat) : Nat :=
  let q := num / den
  let r := num % den
  if 2 * r < den then q
  else if den < 2 * r then q + 1
  else if q % 2 = 0 then q else q + 1

/-- Scale the positive rational a/b by powers of two (recording the
exponent) until it lies in [2^52, 2^53), the significand range of a
binary64 float.  Fuel bounds the loop; 4500 covers every exponent that
a finite binary64 value can have. -/
def floatNormalize : Nat → Nat → Nat → Int → Nat × Nat × Int
  | 0, a, b, e => (a, b, e)
  | fuel + 1, a, b, e =>
    if b * 2 ^ 53 ≤ a then floatNormalize fuel a (b * 2) (e + 1)
    else if a < b * 2 ^ 52 then floatNormalize fuel (a * 2) b (e - 1)
    else (a, b, e)

/-- The binary64 value nearest to a/b (b positive), as mantissa * 2^exp
with the mantissa in [2^52, 2^53).  Overflow and subnormals are not
modelled; they cannot arise from the ratios the scorer produces. -/
def roundToDouble (a b : Nat) : Nat × Int :=
  if a = 0 then (0, 0)
  else
    let n := floatNormalize 4500 a b 0
    let m := nearestEven n.1 n.2.1
    if m = 2 ^ 53 then (2 ^ 52, n.2.2 + 1) else (m, n.2.2)

/-- Correctly rounded binary64 product of the double m * 2^e with the
exactly representable natural k (used with k = 100). -/
def mulNatRound (m : Nat) (e : Int) (k : Nat) : Nat × Int :=
  if 0 ≤ e then roundToDouble (m * k * 2 ^ e.toNat) 1
  else roundToDouble (m * k) (2 ^ (-e).toNat)

/-- int() truncation of the nonnegative double m * 2^e. -/
def floorDouble (m : Nat) (e : Int) : Nat :=
  if 0 ≤ e then m * 2 ^ e.toNat else m / 2 ^ (-e).toNat

/-- int((c / total) * 100) as Python evaluates it: c / total is the
binary64 double nearest to the exact ratio, the product with 100 is again
correctly rounded, and int() truncates toward zero. -/
def pctFloat (c total : Nat) : Nat :=
  let d := roundToDouble c total
  let p := mulNatRound d.1 d.2 100
  floorDouble p.1 p.2

/-- The output record of analyze_answers.  The three mappings are ordered
association lists, mirroring Python's insertion-ordered dicts. -/
structure VisibilityReport where
  brand_visibility : Nat
  brand_mentions : List (PyStr × Nat)
  persona_visibility : List (PyStr × Nat)
  topic_visibility : List (PyStr × Nat)
deriving DecidableEq

/-- The mutable counters of the answer loop in analyze_answers. -/
structure ScanState where
  brand_counts : List (PyStr × Nat)
  brand_hit_answers : Nat
  persona_counts : List (PyStr × Nat)
  topic_counts : List (PyStr × Nat)
deriving DecidableEq

/-- The brand/competitor loop of report.py for one answer: for each name,
if its lowercase form occurs in the text, add text.count(name.lower()) to
its counter and set the per-answer hit flag. -/
def processBrands (text : PyStr) : List PyStr → List (PyStr × Nat) × Bool → List (PyStr × Nat) × Bool
  | [], acc => acc
  | b :: bs, (counts, found) =>
    processBrands text bs
      (if strIn (lowerStr b) text then
        (updateAssoc b (fun v => v + pyCount (lowerStr b) text) counts, true)
      else (counts, found))

/-- The persona loop of report.py for one answer; building the keyword
list can raise (empty persona name), which aborts the whole call. -/
def processPersonas (text : PyStr) : List PyStr → List (PyStr × Nat) → Option (List (PyStr × Nat))
  | [], counts => some counts
  | p :: ps, counts =>
    match personaKeywords p with
    | none => none
    | some kws =>
      processPersonas text ps
        (if contains_any text kws then updateAssoc p (fun v => v + 1) counts else counts)

/-- The topic loop of report.py for one answer. -/
def processTopics (text : PyStr) : List PyStr → List (PyStr × Nat) → List (PyStr × Nat)
  | [], counts => counts
  | t :: ts, counts =>
    processTopics text ts
      (if contains_any text (topicKeywords t) then updateAssoc t (fun v => v + 1) counts else counts)

/-- The body of the per-answer loop of analyze_answers. -/
def scanAnswer (allB personas topics : List PyStr) (st : ScanState) (a : RawText) : Option ScanState :=
  let text := normalize a
  let pb := processBrands text allB (st.brand_counts, false)
  let hits := if pb.2 then st.brand_hit_answers + 1 else st.brand_hit_answers
  match processPersonas text personas st.persona_counts with
  | none => none
  | some pc => some ⟨pb.1, hits, pc, processTopics text topics st.topic_counts⟩

/-- The per-answer loop of analyze_answers over the whole batch. -/
def scanAll (allB personas topics : List PyStr) : ScanState → List RawText → Option ScanState
  | st, [] => some st
  | st, a :: rest =>
    match scanAnswer allB personas topics st a with
    | none => none
    | some st' => scanAll allB personas topics st' rest

/-- analyze_answers from report.py.  total_answers is len(answers) or 1;
the result is none when the Python code would raise (an IndexError from a
persona name with no words, with a nonempty batch). -/
def analyze_answers (answers : List RawText) (brand : PyStr)
    (competitors personas topics : List PyStr) : Option VisibilityReport :=
  let total_answers := if answers.length = 0 then 1 else answers.length
  let all_brands := brand :: competitors
  match scanAll all_brands personas topics
      ⟨initCounts all_brands, 0, initCounts personas, initCounts topics⟩ answers with
  | none => none
  | some st =>
    some
      { brand_visibility := pctFloat st.brand_hit_answers total_answers
        brand_mentions := sortDesc st.brand_counts
        persona_visibility :=
          (st.persona_counts.filter (fun x => decide (0 < x.2))).map
            (fun x => (x.1, pctFloat x.2 total_answers))
        topic_visibility :=
          (st.topic_counts.filter (fun x => decide (0 < x.2))).map
            (fun x => (x.1, pctFloat x.2 total_answers)) }

/-- A prompt entry of the payload: a plain string (broadcast to every
model) or a dict {model, prompt} targeting one model. -/
inductive Prompt where
  | plain (text : PyStr)
  | tagged (model text : PyStr)
deriving DecidableEq

/-- The payload of generate_report.  brand is optional to model its
possible absence from the dict; the other fields use payload.get
defaults, so an absent field is the same as an empty list. -/
structure Payload where
  brand : Option PyStr
  competitors : List PyStr
  personas : List PyStr
  topics : List PyStr
  prompts : List Prompt
  models : List PyStr

/-- Observable interactions of generate_report with the model-invocation
collaborator: get_llm(model) calls and llm.invoke(prompt) calls. -/
inductive Event where
  | getLLM (model : PyStr)
  | invoke (model prompt : PyStr)
deriving DecidableEq

/-- defaultdict(list)[k].append(v): append v to the list at key k,
creating the key at the end of the dict on first use. -/
def appendToQueue (k : PyStr) (v : PyStr) : List (PyStr × List PyStr) → List (PyStr × List PyStr)
  | [] => [(k, [v])]
  | kv :: rest => if kv.1 = k then (kv.1, kv.2 ++ [v]) :: rest else kv :: appendToQueue k v rest

/-- dict.get(m, []) on an ordered association list. -/
def lookupQueue : List (PyStr × List PyStr) → PyStr → List PyStr
  | [], _ => []
  | kv :: rest, m => if kv.1 = m then kv.2 else lookupQueue rest m

/-- Broadcast of a plain prompt: append it to every model's queue, in
model-list order. -/
def broadcastTo (t : PyStr) : List PyStr → List (PyStr × List PyStr) → List (PyStr × List PyStr)
  | [], acc => acc
  | m :: ms, acc => broadcastTo t ms (appendToQueue m t acc)

/-- The prompt-routing loop of generate_report. -/
def routeGo (models : List PyStr) : List Prompt → List (PyStr × List PyStr) → List (PyStr × List PyStr)
  | [], acc => acc
  | Prompt.tagged mt t :: ps, acc => routeGo models ps (appendToQueue mt t acc)
  | Prompt.plain t :: ps, acc => routeGo models ps (broadcastTo t models acc)

/-- prompts_by_model: group prompts by model, broadcasting plain prompts. -/
def routePrompts (prompts : List Prompt) (models : List PyStr) : List (PyStr × List PyStr) :=
  routeGo models prompts []

/-- The queue the spec's routing rule assigns to model m, written from the
spec's words: a tagged prompt goes only to its target model, and a plain
prompt is appended once per occurrence of m in the model list. -/
def expectedQueue (prompts : List Prompt) (models : List PyStr) (m : PyStr) : List PyStr :=
  prompts.flatMap (fun p =>
    match p with
    | Prompt.tagged mt t => if mt = m then [t] else []
    | Prompt.plain t => List.replicate (List.count m models) t)

/-- The inner invocation loop for one model: invoke each queued prompt in
order, appending the response text to the model's answer list.  The
oracle stands for the external collaborator, already composed with the
content extraction (response.content, or str(response)). -/
def invokeAll (oracle : PyStr → PyStr → PyStr) (m : PyStr) :
    List PyStr → List (PyStr × List PyStr) × List Event → List (PyStr × List PyStr) × List Event
  | [], acc => acc
  | q :: qs, acc =>
    invokeAll oracle m qs (appendToQueue m (oracle m q) acc.1, acc.2 ++ [Event.invoke m q])

/-- The answer-generation loop: for each model in the model list, acquire
a handle (get_llm, recorded as an event) and invoke its queued prompts. -/
def genAnswersGo (oracle : PyStr → PyStr → PyStr) (queues : List (PyStr × List PyStr)) :
    List PyStr → List (PyStr × List PyStr) × List Event → List (PyStr × List PyStr) × List Event
  | [], acc => acc
  | m :: ms, acc =>
    genAnswersGo oracle queues ms
      (invokeAll oracle m (lookupQueue queues m) (acc.1, acc.2 ++ [Event.getLLM m]))

/-- The per-model analysis loop: one VisibilityReport per entry of
answers_by_model, in insertion order; a raising analysis aborts the call. -/
def perModelReports (brand : PyStr) (competitors personas topics : List PyStr) :
    List (PyStr × List PyStr) → Option (List (PyStr × VisibilityReport))
  | [] => some []
  | kv :: rest =>
    match analyze_answers (kv.2.map RawText.str) brand competitors personas topics with
    | none => none
    | some r =>
      match perModelReports brand competitors personas topics rest with
      | none => none
      | some pms => some ((kv.1, r) :: pms)

/-- combined_answers: the concatenation of every model's answers in
answers_by_model order (the loop extends the combined list per model). -/
def allAnswers : List (PyStr × List PyStr) → List PyStr
  | [] => []
  | kv :: rest => kv.2 ++ allAnswers rest

/-- Failures of generate_report: the KeyError from payload["brand"]
(which the spec names MissingFieldError) and the IndexError propagated
from analyze_answers. -/
inductive ReportError where
  | missingField (key : PyStr)
  | indexError
deriving DecidableEq

/-- The result record of generate_report. -/
structure Report where
  per_model : List (PyStr × VisibilityReport)
  combined : VisibilityReport

/-- The key "brand". -/
def brandField : PyStr := "brand".toList

/-- The body of generate_report after payload["brand"] succeeded.
Python runs the per-model loop (scoring and extending combined_answers)
in one pass; scoring each model first and concatenating the same answer
lists afterwards is the same computation. -/
def generateWithBrand (oracle : PyStr → PyStr → PyStr) (payload : Payload) (brand : PyStr) :
    Except ReportError Report × List Event :=
  let ga := genAnswersGo oracle (routePrompts payload.prompts payload.models) payload.models ([], [])
  match perModelReports brand payload.competitors payload.personas payload.topics ga.1 with
  | none => (Except.error ReportError.indexError, ga.2)
  | some pm =>
    match analyze_answers ((allAnswers ga.1).map RawText.str) brand
        payload.competitors payload.personas payload.topics with
    | none => (Except.error ReportError.indexError, ga.2)
    | some comb => (Except.ok { per_model := pm, combined := comb }, ga.2)

/-- generate_report from report.py, with the trace of collaborator events
it performs.  payload["brand"] raises before anything else runs when the
key is absent, so the trace is empty in that case. -/
def generate_report (oracle : PyStr → PyStr → PyStr) (payload : Payload) :
    Except ReportError Report × List Event :=
  match payload.brand with
  | none => (Except.error (ReportError.missingField brandField), [])
  | some brand => generateWithBrand oracle payload brand

/-- total_answers as analyze_answers computes it: len(answers) or 1. -/
def totalFor (answers : List RawText) : Nat :=
  if answers.length = 0 then 1 else answers.length

/-- Does some brand or competitor name occur in this normalized text? -/
def answerBrandHit (allB : List PyStr) (text : PyStr) : Bool :=
  allB.any (fun b => strIn (lowerStr b) text)

/-- The per-answer persona hit test, as a total function: a persona whose
name splits into no words never hits (in the code that case raises
instead, so this function only describes runs that return). -/
def personaHitB (p text : PyStr) : Bool :=
  match splitWs p with
  | [] => false
  | w :: _ => contains_any text (lowerStr p :: lowerStr w :: staticPersonaTerms)

/-- The per-answer topic hit test. -/
def topicHitB (t text : PyStr) : Bool :=
  contains_any text (topicKeywords t)

/-- The final mentions counter for name n: each occurrence of n in the
vocabulary list contributes the total substring count independently, and
the contributions land on the shared dict key. -/
def mentionsTotal (allB : List PyStr) (answers : List RawText) (n : PyStr) : Nat :=
  List.count n allB * (answers.map (fun a => pyCount (lowerStr n) (normalize a))).sum

/-- The final persona counter for persona key p. -/
def personaHits (personas : List PyStr) (answers : List RawText) (p : PyStr) : Nat :=
  List.count p personas * List.countP (fun a => personaHitB p (normalize a)) answers

/-- The final topic counter for topic key t. -/
def topicHits (topics : List PyStr) (answers : List RawText) (t : PyStr) : Nat :=
  List.count t topics * List.countP (fun a => topicHitB t (normalize a)) answers

/-- The value analyze_answers returns on a run that does not raise,
expressed directly in terms of the final counter values. -/
def specReport (answers : List RawText) (brand : PyStr)
    (competitors personas topics : List PyStr) : VisibilityReport :=
  { brand_visibility :=
      pctFloat (List.countP (fun a => answerBrandHit (brand :: competitors) (normalize a)) answers)
        (totalFor answers)
    brand_mentions :=
      sortDesc (mapCnt (dedupFirst (brand :: competitors))
        (fun n => mentionsTotal (brand :: competitors) answers n))
    persona_visibility :=
      ((mapCnt (dedupFirst personas) (fun p => personaHits personas answers p)).filter
          (fun x => decide (0 < x.2))).map
        (fun x => (x.1, pctFloat x.2 (totalFor answers)))
    topic_visibility :=
      ((mapCnt (dedupFirst topics) (fun t => topicHits topics answers t)).filter
          (fun x => decide (0 < x.2))).map
        (fun x => (x.1, pctFloat x.2 (totalFor answers))) }

/-- Value lookup in an ordered association list, with default 0. -/
def lookupCount : List (PyStr × Nat) → PyStr → Nat
  | [], _ => 0
  | kv :: rest, n => if kv.1 = n then kv.2 else lookupCount rest n

instance : IsTotal (PyStr × Nat) (fun x y => y.2 ≤ x.2) :=
  ⟨fun a b => le_total b.2 a.2⟩

instance : IsTrans (PyStr × Nat) (fun x y => y.2 ≤ x.2) :=
  ⟨fun _ _ _ h1 h2 => le_trans h2 h1⟩

/-! ### Concrete inputs and outputs used by witnesses and counterexamples -/

/-- A batch of 100 answers of which exactly 29 mention the brand "a". -/
def c1Batch : List RawText :=
  List.replicate 29 (RawText.str ("a".toList)) ++ List.replicate 71 (RawText.str ("b".toList))

/-- A payload with no "brand" key. -/
def payloadC2 : Payload := ⟨none, [], [], [], [], []⟩

/-- The answer of scenario 1 of the spec. -/
def c3ans : RawText := RawText.str ("Acme is great, Acme rocks".toList)

/-- What analyze_answers returns on scenario 1 with one competitor. -/
def c3rep : VisibilityReport :=
  ⟨100, [("Acme".toList, 2), ("Zen".toList, 0)], [], []⟩

/-- An oracle whose every answer mentions the brand twice. -/
def oracleC4 : PyStr → PyStr → PyStr := fun _ _ => "acme acme".toList

/-- One broadcast prompt, one model. -/
def payloadC4 : Payload :=
  ⟨some ("acme".toList), [], [], [], [Prompt.plain ("q".toList)], [ "m1".toList ]⟩

/-- The per-model report of the C4 witness run. -/
def c4r : VisibilityReport := ⟨100, [("acme".toList, 2)], [], []⟩

/-- What generate_report returns on payloadC4 with oracleC4. -/
def c4rep : Report := ⟨[("m1".toList, c4r)], c4r⟩

/-- An answer that hits the generic persona keyword "roadmap" but no topic. -/
def c5ans : RawText := RawText.str ("the roadmap".toList)

/-- What analyze_answers returns on c5ans with one persona and one topic. -/
def c5rep : VisibilityReport :=
  ⟨0, [("b".toList, 0)], [("Product Manager".toList, 100)], []⟩

/-- Scenario 4 of the spec: contains "roadmap" but not "product manager". -/
def c7ans : RawText := RawText.str ("the roadmap is ready".toList)

/-- What analyze_answers returns on c7ans with the Product Manager persona. -/
def c7rep : VisibilityReport :=
  ⟨0, [("b".toList, 0)], [("Product Manager".toList, 100)], []⟩

/-- One broadcast prompt and two models (scenario 5 of the spec). -/
def payloadC6 : Payload :=
  ⟨some ("b".toList), [], [], [], [Prompt.plain ("q".toList)], [ "m1".toList, "m2".toList ]⟩

/-- A prompt tagged for m1 only, with models m1 and m2. -/
def payloadC9 : Payload :=
  ⟨some ("b".toList), [], [], [], [Prompt.tagged ("m1".toList) ("q".toList)],
   [ "m1".toList, "m2".toList ]⟩

/-- A constant oracle for the C9 witness run. -/
def oracleC9 : PyStr → PyStr → PyStr := fun _ _ => "x".toList

/-- The report of the single routed model in the C9 witness run. -/
def c9r : VisibilityReport := ⟨0, [("b".toList, 0)], [], []⟩

/-- What generate_report returns on payloadC9 with oracleC9. -/
def c9rep : Report := ⟨[("m1".toList, c9r)], c9r⟩

/-! ### String-level lemmas -/

theorem strIn_nil_pat (text : PyStr) : strIn [] text = true := by
  cases text <;> simp [strIn, isSubAt]

theorem pyCountAux_eq_zero (p : Char) (ps text : PyStr) (fuel : Nat)
    (h : strIn (p :: ps) text = false) : pyCountAux p ps fuel text = 0 := by
  induction fuel generalizing text with
  | zero => cases text <;> rfl
  | succ fuel ih =>
    cases text with
    | nil => rfl
    | cons c rest =>
      simp only [strIn, Bool.or_eq_false_iff] at h
      rw [pyCountAux, if_neg (by simp [h.1]), ih rest h.2]

theorem pyCount_eq_zero (pat text : PyStr) (h : strIn pat text = false) :
    pyCount pat text = 0 := by
  cases pat with
  | nil => rw [strIn_nil_pat] at h; cases h
  | cons p ps => exact pyCountAux_eq_zero p ps text text.length h

/-! ### Association-list and dedup lemmas -/

theorem updateAssoc_mapCnt (keys : List PyStr) (g : PyStr → Nat) (f : Nat → Nat) (n : PyStr)
    (hnd : keys.Nodup) :
    updateAssoc n f (mapCnt keys g) =
      mapCnt keys (fun k => if k = n then f (g k) else g k) := by
  induction keys with
  | nil => rfl
  | cons k ks ih =>
    rw [List.nodup_cons] at hnd
    simp only [mapCnt, List.map_cons, updateAssoc]
    by_cases hk : k = n
    · subst hk
      simp only [if_pos rfl]
      refine congrArg (fun l => (k, f (g k)) :: l) ?_
      refine (List.map_congr_left ?_).symm
      intro x hx
      have hxk : ¬ x = k := fun h => hnd.1 (h ▸ hx)
      simp [hxk]
    · simp only [if_neg hk]
      exact congrArg (fun l => (k, g k) :: l) (ih hnd.2)

theorem dedupFirstAux_mem (l : List PyStr) (seen : List PyStr) (a : PyStr) :
    a ∈ dedupFirstAux seen l ↔ a ∈ l ∧ a ∉ seen := by
  induction l generalizing seen with
  | nil => simp [dedupFirstAux]
  | cons x xs ih =>
    by_cases hx : x ∈ seen
    · rw [dedupFirstAux, if_pos hx, ih]
      constructor
      · exact fun h => ⟨List.mem_cons_of_mem x h.1, h.2⟩
      · rintro ⟨h1, h2⟩
        rcases List.mem_cons.mp h1 with h | h
        · exact absurd (h ▸ hx) h2
        · exact ⟨h, h2⟩
    · rw [dedupFirstAux, if_neg hx]
      simp only [List.mem_cons, ih, List.mem_cons]
      by_cases hax : a = x
      · subst hax
        simp [hx]
      · simp only [hax, false_or]

theorem dedupFirst_mem (l : List PyStr) (a : PyStr) : a ∈ dedupFirst l ↔ a ∈ l := by
  simp [dedupFirst, dedupFirstAux_mem]

theorem dedupFirstAux_nodup (l : List PyStr) (seen : List PyStr) :
    (dedupFirstAux seen l).Nodup := by
  induction l generalizing seen with
  | nil => simp [dedupFirstAux]
  | cons x xs ih =>
    by_cases hx : x ∈ seen
    · rw [dedupFirstAux, if_pos hx]; exact ih seen
    · rw [dedupFirstAux, if_neg hx]
      refine List.nodup_cons.mpr ⟨fun hmem => ?_, ih (x :: seen)⟩
      exact ((dedupFirstAux_mem xs (x :: seen) x).mp hmem).2 (List.mem_cons_self x seen)

theorem dedupFirst_nodup (l : List PyStr) : (dedupFirst l).Nodup :=
  dedupFirstAux_nodup l []

theorem mapCnt_keys (keys : List PyStr) (g : PyStr → Nat) :
    (mapCnt keys g).map Prod.fst = keys := by
  induction keys with
  | nil => rfl
  | cons k ks ih =>
    simp only [mapCnt, List.map_cons] at ih ⊢
    exact congrArg (fun l => k :: l) ih

theorem sortDesc_perm (l : List (PyStr × Nat)) : List.Perm (sortDesc l) l :=
  List.perm_insertionSort _ l

theorem sortDesc_sorted (l : List (PyStr × Nat)) :
    List.Pairwise (fun x y => y.2 ≤ x.2) (sortDesc l) :=
  List.sorted_insertionSort _ l

theorem lookupCount_eq_of_mem (l : List (PyStr × Nat)) (n : PyStr) (c : Nat)
    (hnd : (l.map Prod.fst).Nodup) (hm : (n, c) ∈ l) : lookupCount l n = c := by
  induction l with
  | nil => cases hm
  | cons kv rest ih =>
    rw [List.map_cons, List.nodup_cons] at hnd
    rcases List.mem_cons.mp hm with h | h
    · rw [lookupCount, if_pos (by rw [← h])]
      rw [← h]
    · have hne : kv.1 ≠ n := by
        intro he
        exact hnd.1 (he ▸ (List.mem_map_of_mem Prod.fst h))
      rw [lookupCount, if_neg hne]
      exact ih hnd.2 h

theorem lookupCount_eq_zero (l : List (PyStr × Nat)) (n : PyStr)
    (hm : n ∉ l.map Prod.fst) : lookupCount l n = 0 := by
  induction l with
  | nil => rfl
  | cons kv rest ih =>
    rw [List.map_cons, List.mem_cons] at hm
    push_neg at hm
    rw [lookupCount, if_neg (fun he => hm.1 he.symm)]
    exact ih hm.2

theorem lookupCount_sortDesc_mapCnt (keys : List PyStr) (g : PyStr → Nat) (n : PyStr)
    (hnd : keys.Nodup) :
    lookupCount (sortDesc (mapCnt keys g)) n = if n ∈ keys then g n else 0 := by
  by_cases hn : n ∈ keys
  · rw [if_pos hn]
    refine lookupCount_eq_of_mem _ _ _ ?_ ?_
    · have hperm : List.Perm ((sortDesc (mapCnt keys g)).map Prod.fst) keys := by
        have := (sortDesc_perm (mapCnt keys g)).map Prod.fst
        rwa [mapCnt_keys] at this
      exact (hperm.nodup_iff).mpr hnd
    · exact (sortDesc_perm (mapCnt keys g)).mem_iff.mpr (List.mem_map_of_mem _ hn)
  · rw [if_neg hn]
    refine lookupCount_eq_zero _ _ ?_
    intro hmem
    have hperm : List.Perm ((sortDesc (mapCnt keys g)).map Prod.fst) keys := by
      have := (sortDesc_perm (mapCnt keys g)).map Prod.fst
      rwa [mapCnt_keys] at this
    exact hn (hperm.mem_iff.mp hmem)

/-! ### Per-answer loop characterizations -/

theorem processBrands_mapCnt (text : PyStr) (bs keys : List PyStr) (g : PyStr → Nat) (found : Bool)
    (hnd : keys.Nodup) :
    processBrands text bs (mapCnt keys g, found) =
      (mapCnt keys (fun k => g k + List.count k bs * pyCount (lowerStr k) text),
       found || bs.any (fun b => strIn (lowerStr b) text)) := by
  induction bs generalizing g found with
  | nil =>
    simp [processBrands, mapCnt]
  | cons b bs ih =>
    cases hin : strIn (lowerStr b) text with
    | true =>
      rw [processBrands, if_pos hin, updateAssoc_mapCnt _ _ _ _ hnd, ih]
      refine Prod.ext ?_ ?_
      · refine congrArg (mapCnt keys) (funext fun k => ?_)
        by_cases hk : k = b
        · subst hk
          rw [if_pos rfl, List.count_cons_self]
          ring
        · rw [if_neg hk, List.count_cons_of_ne hk]
      · simp [List.any_cons, hin]
    | false =>
      rw [processBrands, if_neg (by rw [hin]; exact Bool.false_ne_true), ih]
      refine Prod.ext ?_ ?_
      · refine congrArg (mapCnt keys) (funext fun k => ?_)
        by_cases hk : k = b
        · subst hk
          rw [List.count_cons_self, pyCount_eq_zero _ _ hin]
          ring
        · rw [List.count_cons_of_ne hk]
      · simp [List.any_cons, hin]

theorem processPersonas_mapCnt (text : PyStr) (ps keys : List PyStr) (g : PyStr → Nat)
    (hnd : keys.Nodup) (hgood : ∀ p ∈ ps, splitWs p ≠ []) :
    processPersonas text ps (mapCnt keys g) =
      some (mapCnt keys
        (fun k => g k + List.count k ps * (if personaHitB k text then 1 else 0))) := by
  revert hgood
  induction ps generalizing g with
  | nil =>
    intro _
    simp [processPersonas, mapCnt]
  | cons p ps ih =>
    intro hgood
    have hpg : splitWs p ≠ [] := hgood p (List.mem_cons_self p ps)
    have hgood' : ∀ q ∈ ps, splitWs q ≠ [] := fun q hq => hgood q (List.mem_cons_of_mem p hq)
    obtain ⟨w, ws, hw⟩ : ∃ w ws, splitWs p = w :: ws := by
      cases hsp : splitWs p with
      | nil => exact absurd hsp hpg
      | cons w ws => exact ⟨w, ws, rfl⟩
    have hhit : personaHitB p text = contains_any text (lowerStr p :: lowerStr w :: staticPersonaTerms) := by
      simp [personaHitB, hw]
    rw [processPersonas]
    simp only [personaKeywords, hw]
    cases hc : contains_any text (lowerStr p :: lowerStr w :: staticPersonaTerms) with
    | true =>
      have hx : (if personaHitB p text = true then (1 : Nat) else 0) = 1 := by
        rw [hhit, hc]
        decide
      rw [if_pos rfl, updateAssoc_mapCnt _ _ _ _ hnd, ih _ hgood']
      refine congrArg some (congrArg (mapCnt keys) (funext fun k => ?_))
      by_cases hk : k = p
      · subst hk
        rw [if_pos rfl, List.count_cons_self, hx]
        ring
      · rw [if_neg hk, List.count_cons_of_ne hk]
    | false =>
      have hx : (if personaHitB p text = true then (1 : Nat) else 0) = 0 := by
        rw [hhit, hc]
        decide
      rw [if_neg Bool.false_ne_true, ih _ hgood']
      refine congrArg some (congrArg (mapCnt keys) (funext fun k => ?_))
      by_cases hk : k = p
      · subst hk
        rw [List.count_cons_self, hx]
        ring
      · rw [List.count_cons_of_ne hk]

theorem processTopics_mapCnt (text : PyStr) (ts keys : List PyStr) (g : PyStr → Nat)
    (hnd : keys.Nodup) :
    processTopics text ts (mapCnt keys g) =
      mapCnt keys (fun k => g k + List.count k ts * (if topicHitB k text then 1 else 0)) := by
  induction ts generalizing g with
  | nil =>
    simp [processTopics, mapCnt]
  | cons t ts ih =>
    rw [processTopics]
    cases hc : contains_any text (topicKeywords t) with
    | true =>
      have hx : (if topicHitB t text = true then (1 : Nat) else 0) = 1 := by
        rw [show topicHitB t text = contains_any text (topicKeywords t) from rfl, hc]
        decide
      rw [if_pos rfl, updateAssoc_mapCnt _ _ _ _ hnd, ih]
      refine congrArg (mapCnt keys) (funext fun k => ?_)
      by_cases hk : k = t
      · subst hk
        rw [if_pos rfl, List.count_cons_self, hx]
        ring
      · rw [if_neg hk, List.count_cons_of_ne hk]
    | false =>
      have hx : (if topicHitB t text = true then (1 : Nat) else 0) = 0 := by
        rw [show topicHitB t text = contains_any text (topicKeywords t) from rfl, hc]
        decide
      rw [if_neg Bool.false_ne_true, ih]
      refine congrArg (mapCnt keys) (funext fun k => ?_)
      by_cases hk : k = t
      · subst hk
        rw [List.count_cons_self, hx]
        ring
      · rw [List.count_cons_of_ne hk]

theorem scanAnswer_mapCnt (allB personas topics : List PyStr) (a : RawText)
    (gb gp gt : PyStr → Nat) (hits : Nat) (hgood : ∀ p ∈ personas, splitWs p ≠ []) :
    scanAnswer allB personas topics
      ⟨mapCnt (dedupFirst allB) gb, hits, mapCnt (dedupFirst personas) gp,
       mapCnt (dedupFirst topics) gt⟩ a =
      some ⟨mapCnt (dedupFirst allB)
              (fun k => gb k + List.count k allB * pyCount (lowerStr k) (normalize a)),
            (if answerBrandHit allB (normalize a) then hits + 1 else hits),
            mapCnt (dedupFirst personas)
              (fun k => gp k + List.count k personas * (if personaHitB k (normalize a) then 1 else 0)),
            mapCnt (dedupFirst topics)
              (fun k => gt k + List.count k topics * (if topicHitB k (normalize a) then 1 else 0))⟩ := by
  simp only [scanAnswer]
  rw [processBrands_mapCnt _ _ _ _ _ (dedupFirst_nodup allB),
    processPersonas_mapCnt _ _ _ _ (dedupFirst_nodup personas) hgood,
    processTopics_mapCnt _ _ _ _ (dedupFirst_nodup topics)]
  simp [answerBrandHit]

theorem scanAll_mapCnt (allB personas topics : List PyStr) (answers : List RawText)
    (hgood : ∀ p ∈ personas, splitWs p ≠ [])
    (gb gp gt : PyStr → Nat) (hits : Nat) :
    scanAll allB personas topics
      ⟨mapCnt (dedupFirst allB) gb, hits, mapCnt (dedupFirst personas) gp,
       mapCnt (dedupFirst topics) gt⟩ answers =
      some ⟨mapCnt (dedupFirst allB)
              (fun k => gb k +
                List.count k allB * (answers.map (fun a => pyCount (lowerStr k) (normalize a))).sum),
            hits + List.countP (fun a => answerBrandHit allB (normalize a)) answers,
            mapCnt (dedupFirst personas)
              (fun k => gp k +
                List.count k personas * List.countP (fun a => personaHitB k (normalize a)) answers),
            mapCnt (dedupFirst topics)
              (fun k => gt k +
                List.count k topics * List.countP (fun a => topicHitB k (normalize a)) answers)⟩ := by
  induction answers generalizing gb gp gt hits with
  | nil =>
    simp [scanAll, mapCnt]
  | cons a rest ih =>
    rw [scanAll, scanAnswer_mapCnt _ _ _ _ _ _ _ _ hgood]
    refine (ih _ _ _ _).trans ?_
    refine congrArg some ?_
    have hb : (fun k => (gb k + List.count k allB * pyCount (lowerStr k) (normalize a)) +
          List.count k allB * (rest.map (fun x => pyCount (lowerStr k) (normalize x))).sum) =
        (fun k => gb k +
          List.count k allB * ((a :: rest).map (fun x => pyCount (lowerStr k) (normalize x))).sum) := by
      funext k
      rw [List.map_cons, List.sum_cons, Nat.mul_add]
      ring
    have hp : (fun k => (gp k + List.count k personas * (if personaHitB k (normalize a) then 1 else 0)) +
          List.count k personas * List.countP (fun x => personaHitB k (normalize x)) rest) =
        (fun k => gp k +
          List.count k personas * List.countP (fun x => personaHitB k (normalize x)) (a :: rest)) := by
      funext k
      rw [List.countP_cons, Nat.mul_add]
      ring
    have ht : (fun k => (gt k + List.count k topics * (if topicHitB k (normalize a) then 1 else 0)) +
          List.count k topics * List.countP (fun x => topicHitB k (normalize x)) rest) =
        (fun k => gt k +
          List.count k topics * List.countP (fun x => topicHitB k (normalize x)) (a :: rest)) := by
      funext k
      rw [List.countP_cons, Nat.mul_add]
      ring
    rw [hb, hp, ht]
    have hh : (if answerBrandHit allB (normalize a) then hits + 1 else hits) +
        List.countP (fun x => answerBrandHit allB (normalize x)) rest =
        hits + List.countP (fun x => answerBrandHit allB (normalize x)) (a :: rest) := by
      rw [List.countP_cons]
      cases hba : answerBrandHit allB (normalize a)
      · simp [hba]
      · simp [hba]
        omega
    rw [hh]

/-! ### analyze_answers characterization -/

theorem filter_pos_mapCnt_zero (keys : List PyStr) :
    (mapCnt keys (fun _ => 0)).filter (fun x => decide (0 < x.2)) = [] := by
  induction keys with
  | nil => rfl
  | cons k ks ih =>
    rw [show mapCnt (k :: ks) (fun _ => 0) = (k, 0) :: mapCnt ks (fun _ => 0) from rfl,
      List.filter_cons_of_neg (by simp)]
    exact ih

theorem analyze_answers_eq_spec (answers : List RawText) (brand : PyStr)
    (competitors personas topics : List PyStr)
    (hgood : answers = [] ∨ ∀ p ∈ personas, splitWs p ≠ []) :
    analyze_answers answers brand competitors personas topics =
      some (specReport answers brand competitors personas topics) := by
  rcases hgood with rfl | hgood
  · simp only [analyze_answers, scanAll, specReport, initCounts, totalFor, mentionsTotal,
      personaHits, topicHits, List.map_nil, List.sum_nil, List.countP_nil, Nat.mul_zero,
      List.length_nil, filter_pos_mapCnt_zero, List.map_nil, if_pos rfl]
  · simp only [analyze_answers]
    rw [show initCounts (brand :: competitors) =
          mapCnt (dedupFirst (brand :: competitors)) (fun _ => 0) from rfl,
        show initCounts personas = mapCnt (dedupFirst personas) (fun _ => 0) from rfl,
        show initCounts topics = mapCnt (dedupFirst topics) (fun _ => 0) from rfl,
        scanAll_mapCnt _ _ _ _ hgood]
    simp only [specReport, mentionsTotal, personaHits, topicHits, totalFor, Nat.zero_add]

theorem processPersonas_noneOf (text : PyStr) (ps : List PyStr) (counts : List (PyStr × Nat))
    (hbad : ∃ p ∈ ps, splitWs p = []) : processPersonas text ps counts = none := by
  induction ps generalizing counts with
  | nil => simp at hbad
  | cons p ps ih =>
    obtain ⟨q, hq, hqs⟩ := hbad
    rcases List.mem_cons.mp hq with rfl | hmem
    · rw [processPersonas]
      simp [personaKeywords, hqs]
    · rw [processPersonas]
      cases hk : personaKeywords p with
      | none => rfl
      | some kws => exact ih _ ⟨q, hmem, hqs⟩

theorem analyze_answers_none_of_bad (brand : PyStr) (competitors personas topics : List PyStr)
    (a : RawText) (rest : List RawText) (hbad : ∃ p ∈ personas, splitWs p = []) :
    analyze_answers (a :: rest) brand competitors personas topics = none := by
  simp only [analyze_answers, scanAll, scanAnswer]
  rw [processPersonas_noneOf _ _ _ hbad]

theorem analyze_answers_some_spec (answers : List RawText) (brand : PyStr)
    (competitors personas topics : List PyStr) (r : VisibilityReport)
    (h : analyze_answers answers brand competitors personas topics = some r) :
    r = specReport answers brand competitors personas topics := by
  by_cases hg : answers = [] ∨ ∀ p ∈ personas, splitWs p ≠ []
  · rw [analyze_answers_eq_spec _ _ _ _ _ hg] at h
    exact (Option.some_inj.mp h).symm
  · push_neg at hg
    obtain ⟨hne, p, hp, hps⟩ := hg
    cases answers with
    | nil => exact absurd rfl hne
    | cons a rest =>
      rw [analyze_answers_none_of_bad _ _ _ _ a rest ⟨p, hp, hps⟩] at h
      cases h

/-! ### Claim theorems -/

/-- Claim C8: two calls of analyze_answers on the same batch and
vocabularies return the same output.  In the shallow embedding the scorer
is a Lean function of its arguments alone, which is exactly the purity
the claim asserts; the equality is definitional. -/
theorem C8_scorer_deterministic (answers : List RawText) (brand : PyStr)
    (competitors personas topics : List PyStr) :
    analyze_answers answers brand competitors personas topics =
      analyze_answers answers brand competitors personas topics := rfl

/-- Claim C10: when personas contains the empty string and the batch is
nonempty, analyze_answers fails (the IndexError from p.split()[0],
modelled as none): the scorer is not total over empty-string personas. -/
theorem C10_empty_persona_raises (answers : List RawText) (brand : PyStr)
    (competitors personas topics : List PyStr)
    (hp : ([] : PyStr) ∈ personas) (ha : answers ≠ []) :
    analyze_answers answers brand competitors personas topics = none := by
  cases answers with
  | nil => exact absurd rfl ha
  | cons a rest => exact analyze_answers_none_of_bad _ _ _ _ a rest ⟨[], hp, rfl⟩

/-- Witness for C10 at a concrete input: one answer, one empty persona. -/
theorem C10_empty_persona_raises_witness :
    analyze_answers [RawText.str ("x".toList)] ("b".toList) [] [([] : PyStr)] [] = none :=
  C10_empty_persona_raises _ _ _ _ _ (List.mem_cons_self _ _) (List.cons_ne_nil _ _)

/-- Claim C1, counter-evidence: on a batch of 100 answers with 29 brand
hits the code returns brand_visibility 28, because int((29/100)*100)
evaluates to int(28.999999999999996) = 28 in binary64 arithmetic, while
floor(100*29/max(1,100)) = 29.  The spec's integer-division description
is the evident intent, so this is recorded as a bug of the code. -/
theorem C1_brand_visibility_float_bug :
    (analyze_answers c1Batch ("a".toList) [] [] []).map VisibilityReport.brand_visibility =
      some 28 ∧
    100 * 29 / max 1 c1Batch.length = 29 ∧
    c1Batch.length = 100 := by
  refine ⟨by decide, by decide, by decide⟩

/-- Claim C3: brand_mentions contains every vocabulary name (zero counts
included), is sorted descending by count, and maps each name to the sum
over all answers of the non-overlapping occurrences of its lowercase form
in the normalized text — each occurrence of the name in the vocabulary
list scored independently (so exact duplicates accumulate on the shared
key, hence the multiplicity factor). -/
theorem C3_brand_mentions_shape (answers : List RawText) (brand : PyStr)
    (competitors personas topics : List PyStr) (r : VisibilityReport)
    (h : analyze_answers answers brand competitors personas topics = some r) :
    (∀ n ∈ brand :: competitors,
      (n, List.count n (brand :: competitors) *
          (answers.map (fun a => pyCount (lowerStr n) (normalize a))).sum) ∈ r.brand_mentions) ∧
    List.Pairwise (fun x y => y.2 ≤ x.2) r.brand_mentions ∧
    List.Perm (r.brand_mentions.map Prod.fst) (dedupFirst (brand :: competitors)) := by
  have hr := analyze_answers_some_spec _ _ _ _ _ _ h
  subst hr
  refine ⟨?_, ?_, ?_⟩
  · intro n hn
    have hmem : (n, mentionsTotal (brand :: competitors) answers n) ∈
        mapCnt (dedupFirst (brand :: competitors))
          (fun m => mentionsTotal (brand :: competitors) answers m) :=
      List.mem_map_of_mem _ ((dedupFirst_mem _ _).mpr hn)
    exact (sortDesc_perm _).mem_iff.mpr hmem
  · exact sortDesc_sorted _
  · have hperm := (sortDesc_perm (mapCnt (dedupFirst (brand :: competitors))
      (fun n => mentionsTotal (brand :: competitors) answers n))).map Prod.fst
    rwa [mapCnt_keys] at hperm

/-- Witness for C3 on scenario 1 with one competitor: Acme is counted
twice, Zen is present at 0, and the mapping is sorted descending. -/
theorem C3_brand_mentions_shape_witness :
    (( "Acme".toList, List.count ("Acme".toList) ("Acme".toList :: [ "Zen".toList ]) *
        ([c3ans].map (fun a => pyCount (lowerStr ("Acme".toList)) (normalize a))).sum) ∈
      c3rep.brand_mentions) ∧
    List.Pairwise (fun x y => y.2 ≤ x.2) c3rep.brand_mentions ∧
    List.Perm (c3rep.brand_mentions.map Prod.fst) (dedupFirst ("Acme".toList :: [ "Zen".toList ])) := by
  have h := C3_brand_mentions_shape [c3ans] ("Acme".toList) [ "Zen".toList ] [] [] c3rep (by decide)
  exact ⟨h.1 ("Acme".toList) (List.mem_cons_self _ _), h.2.1, h.2.2⟩

/-- Keys of the visibility dict comprehension: exactly the counter keys
whose counter value is positive. -/
theorem mem_keys_filter_pos_mapCnt (keys : List PyStr) (F : PyStr → Nat) (tot : Nat) (x : PyStr) :
    x ∈ (((mapCnt keys F).filter (fun y => decide (0 < y.2))).map
        (fun y => (y.1, pctFloat y.2 tot))).map Prod.fst ↔ x ∈ keys ∧ 0 < F x := by
  simp only [List.map_map, List.mem_map, List.mem_filter, mapCnt, Function.comp_apply,
    decide_eq_true_eq]
  constructor
  · rintro ⟨y, ⟨⟨k, hk, rfl⟩, hpos⟩, rfl⟩
    exact ⟨hk, hpos⟩
  · rintro ⟨hx, hpos⟩
    exact ⟨(x, F x), ⟨⟨x, hx, rfl⟩, hpos⟩, rfl⟩

/-- Value lookup in the visibility dict comprehension, for a key with a
positive counter value. -/
theorem lookupCount_pct_filter (keys : List PyStr) (F : PyStr → Nat) (tot : Nat) (x : PyStr)
    (hnd : keys.Nodup) (hx : x ∈ keys) (hpos : 0 < F x) :
    lookupCount (((mapCnt keys F).filter (fun y => decide (0 < y.2))).map
        (fun y => (y.1, pctFloat y.2 tot))) x = pctFloat (F x) tot := by
  refine lookupCount_eq_of_mem _ _ _ ?_ ?_
  · have hsub : ((((mapCnt keys F).filter (fun y => decide (0 < y.2))).map
          (fun y => (y.1, pctFloat y.2 tot))).map Prod.fst).Sublist
        ((mapCnt keys F).map Prod.fst) := by
      rw [List.map_map]
      have h1 : (((mapCnt keys F).filter (fun y => decide (0 < y.2))).map
          (Prod.fst ∘ fun y => (y.1, pctFloat y.2 tot))).Sublist
          (((mapCnt keys F).filter (fun y => decide (0 < y.2))).map Prod.fst) := by
        rw [show (Prod.fst ∘ fun y : PyStr × Nat => (y.1, pctFloat y.2 tot)) = Prod.fst from rfl]
      exact h1.trans ((List.filter_sublist _).map Prod.fst)
    refine hsub.nodup ?_
    rw [mapCnt_keys]
    exact hnd
  · have h1 : (x, F x) ∈ mapCnt keys F := List.mem_map_of_mem (fun k => (k, F k)) hx
    have h2 : (x, F x) ∈ (mapCnt keys F).filter (fun y => decide (0 < y.2)) :=
      List.mem_filter.mpr ⟨h1, by simpa using hpos⟩
    exact List.mem_map_of_mem (fun y => (y.1, pctFloat y.2 tot)) h2

/-- Keys of persona_visibility: the personas with at least one hitting
answer. -/
theorem persona_visibility_keys (answers : List RawText) (brand : PyStr)
    (competitors personas topics : List PyStr) (r : VisibilityReport)
    (h : analyze_answers answers brand competitors personas topics = some r) (p : PyStr) :
    p ∈ r.persona_visibility.map Prod.fst ↔
      p ∈ personas ∧ 0 < List.countP (fun a => personaHitB p (normalize a)) answers := by
  have hr := analyze_answers_some_spec _ _ _ _ _ _ h
  subst hr
  simp only [specReport]
  rw [mem_keys_filter_pos_mapCnt, dedupFirst_mem]
  constructor
  · rintro ⟨hp, hpos⟩
    refine ⟨hp, ?_⟩
    rcases Nat.eq_zero_or_pos (List.countP (fun a => personaHitB p (normalize a)) answers)
      with hz | hgt
    · rw [personaHits, hz, Nat.mul_zero] at hpos
      exact absurd hpos (lt_irrefl 0)
    · exact hgt
  · rintro ⟨hp, hpos⟩
    exact ⟨hp, Nat.mul_pos (List.count_pos_iff.mpr hp) hpos⟩

/-- Keys of topic_visibility: the topics with at least one hitting
answer. -/
theorem topic_visibility_keys (answers : List RawText) (brand : PyStr)
    (competitors personas topics : List PyStr) (r : VisibilityReport)
    (h : analyze_answers answers brand competitors personas topics = some r) (t : PyStr) :
    t ∈ r.topic_visibility.map Prod.fst ↔
      t ∈ topics ∧ 0 < List.countP (fun a => topicHitB t (normalize a)) answers := by
  have hr := analyze_answers_some_spec _ _ _ _ _ _ h
  subst hr
  simp only [specReport]
  rw [mem_keys_filter_pos_mapCnt, dedupFirst_mem]
  constructor
  · rintro ⟨ht, hpos⟩
    refine ⟨ht, ?_⟩
    rcases Nat.eq_zero_or_pos (List.countP (fun a => topicHitB t (normalize a)) answers)
      with hz | hgt
    · rw [topicHits, hz, Nat.mul_zero] at hpos
      exact absurd hpos (lt_irrefl 0)
    · exact hgt
  · rintro ⟨ht, hpos⟩
    exact ⟨ht, Nat.mul_pos (List.count_pos_iff.mpr ht) hpos⟩

/-- Claim C5: every persona or topic key present in the returned
visibility mappings had at least one hitting answer; zero-hit personas
and topics are omitted rather than mapped to 0. -/
theorem C5_zero_hit_entries_omitted (answers : List RawText) (brand : PyStr)
    (competitors personas topics : List PyStr) (r : VisibilityReport)
    (h : analyze_answers answers brand competitors personas topics = some r) :
    (∀ p, p ∈ r.persona_visibility.map Prod.fst ↔
      p ∈ personas ∧ 0 < List.countP (fun a => personaHitB p (normalize a)) answers) ∧
    (∀ t, t ∈ r.topic_visibility.map Prod.fst ↔
      t ∈ topics ∧ 0 < List.countP (fun a => topicHitB t (normalize a)) answers) :=
  ⟨fun p => persona_visibility_keys _ _ _ _ _ _ h p,
   fun t => topic_visibility_keys _ _ _ _ _ _ h t⟩

/-- Witness for C5: the persona hit by "roadmap" is present, the topic
with no hits is absent, on a concrete batch. -/
theorem C5_zero_hit_entries_omitted_witness :
    (( "Product Manager".toList) ∈ c5rep.persona_visibility.map Prod.fst ↔
      ( "Product Manager".toList) ∈ [ "Product Manager".toList ] ∧
      0 < List.countP (fun a => personaHitB ("Product Manager".toList) (normalize a)) [c5ans]) ∧
    (( "zebra stuff".toList) ∈ c5rep.topic_visibility.map Prod.fst ↔
      ( "zebra stuff".toList) ∈ [ "zebra stuff".toList ] ∧
      0 < List.countP (fun a => topicHitB ("zebra stuff".toList) (normalize a)) [c5ans]) := by
  have h := C5_zero_hit_entries_omitted [c5ans] ("b".toList) []
    [ "Product Manager".toList ] [ "zebra stuff".toList ] c5rep (by decide)
  exact ⟨h.1 _, h.2 _⟩

/-- Claim C7: an answer hits persona p exactly when its normalized text
contains the lowercase persona name, the lowercase first word of the
persona name, or one of the six static terms; hence the membership and
the value of p's entry in persona_visibility are determined by that rule
(scenario 4: one "roadmap" answer gives {"Product Manager": 100}). -/
theorem C7_persona_hit_rule (answers : List RawText) (brand : PyStr)
    (competitors personas topics : List PyStr) (p w : PyStr) (ws : List PyStr)
    (hw : splitWs p = w :: ws) (hp : p ∈ personas) (r : VisibilityReport)
    (h : analyze_answers answers brand competitors personas topics = some r) :
    (∀ text : PyStr, personaHitB p text =
      (strIn (lowerStr p) text || strIn (lowerStr w) text ||
       strIn ("strategy".toList) text || strIn ("roadmap".toList) text ||
       strIn ("architecture".toList) text || strIn ("planning".toList) text ||
       strIn ("analysis".toList) text || strIn ("decision".toList) text)) ∧
    (p ∈ r.persona_visibility.map Prod.fst ↔
      0 < List.countP (fun a => personaHitB p (normalize a)) answers) ∧
    (0 < List.countP (fun a => personaHitB p (normalize a)) answers →
      lookupCount r.persona_visibility p =
        pctFloat
          (List.count p personas * List.countP (fun a => personaHitB p (normalize a)) answers)
          (totalFor answers)) := by
  have hr := analyze_answers_some_spec _ _ _ _ _ _ h
  refine ⟨?_, ?_, ?_⟩
  · intro text
    simp only [personaHitB, hw, contains_any, staticPersonaTerms, List.any_cons, List.any_nil,
      Bool.or_false, Bool.or_assoc]
  · exact (persona_visibility_keys _ _ _ _ _ _ h p).trans
      (by simp [hp])
  · intro hpos
    subst hr
    simp only [specReport]
    exact lookupCount_pct_filter _ _ _ _ (dedupFirst_nodup _) ((dedupFirst_mem _ _).mpr hp)
      (Nat.mul_pos (List.count_pos_iff.mpr hp) hpos)

/-- Witness for C7 on scenario 4: the single answer contains "roadmap"
but not "product manager", and persona_visibility maps the persona to
100. -/
theorem C7_persona_hit_rule_witness :
    lookupCount c7rep.persona_visibility ("Product Manager".toList) = 100 := by
  have h := C7_persona_hit_rule [c7ans] ("b".toList) [] [ "Product Manager".toList ] []
    ("Product Manager".toList) ("Product".toList) [ "Manager".toList ] (by decide)
    (List.mem_cons_self _ _) c7rep (by decide)
  exact (h.2.2 (by decide)).trans (by decide)

/-! ### Prompt routing -/

theorem lookupQueue_appendToQueue_self (l : List (PyStr × List PyStr)) (k v : PyStr) :
    lookupQueue (appendToQueue k v l) k = lookupQueue l k ++ [v] := by
  induction l with
  | nil => simp [appendToQueue, lookupQueue]
  | cons kv rest ih =>
    by_cases hk : kv.1 = k
    · rw [appendToQueue, if_pos hk, lookupQueue, if_pos hk, lookupQueue, if_pos hk]
    · rw [appendToQueue, if_neg hk, lookupQueue, if_neg hk, lookupQueue, if_neg hk, ih]

theorem lookupQueue_appendToQueue_ne (l : List (PyStr × List PyStr)) (k v m : PyStr)
    (hne : k ≠ m) :
    lookupQueue (appendToQueue k v l) m = lookupQueue l m := by
  induction l with
  | nil => simp [appendToQueue, lookupQueue, hne]
  | cons kv rest ih =>
    by_cases hk : kv.1 = k
    · rw [appendToQueue, if_pos hk, lookupQueue, if_neg (hk ▸ hne), lookupQueue,
        if_neg (hk ▸ hne)]
    · rw [appendToQueue, if_neg hk]
      by_cases hm : kv.1 = m
      · rw [lookupQueue, if_pos hm, lookupQueue, if_pos hm]
      · rw [lookupQueue, if_neg hm, lookupQueue, if_neg hm, ih]

theorem lookupQueue_broadcastTo (models : List PyStr) (t : PyStr)
    (acc : List (PyStr × List PyStr)) (m : PyStr) :
    lookupQueue (broadcastTo t models acc) m =
      lookupQueue acc m ++ List.replicate (List.count m models) t := by
  induction models generalizing acc with
  | nil => simp [broadcastTo]
  | cons mm ms ih =>
    rw [broadcastTo, ih]
    by_cases hm : mm = m
    · subst hm
      rw [lookupQueue_appendToQueue_self, List.count_cons_self, List.replicate_succ]
      simp
    · rw [lookupQueue_appendToQueue_ne _ _ _ _ hm,
        List.count_cons_of_ne (fun he => hm he.symm)]

theorem lookupQueue_routeGo (prompts : List Prompt) (models : List PyStr)
    (acc : List (PyStr × List PyStr)) (m : PyStr) :
    lookupQueue (routeGo models prompts acc) m =
      lookupQueue acc m ++ expectedQueue prompts models m := by
  induction prompts generalizing acc with
  | nil => simp [routeGo, expectedQueue]
  | cons p ps ih =>
    cases p with
    | tagged mt t =>
      rw [routeGo, ih]
      by_cases hm : mt = m
      · subst hm
        rw [lookupQueue_appendToQueue_self]
        simp [expectedQueue]
      · rw [lookupQueue_appendToQueue_ne _ _ _ _ hm]
        simp [expectedQueue, hm]
    | plain t =>
      rw [routeGo, ih, lookupQueue_broadcastTo]
      simp [expectedQueue]

/-- Claim C6: the routing rule — a tagged prompt goes only to its target
model's queue and a plain prompt is appended to every model's queue, in
prompt order — and scenario 5: with one untagged prompt and two models,
both queues receive the prompt and per_model has entries for both. -/
theorem C6_prompt_routing :
    (∀ (prompts : List Prompt) (models : List PyStr) (m : PyStr),
      lookupQueue (routePrompts prompts models) m = expectedQueue prompts models m) ∧
    (∀ oracle : PyStr → PyStr → PyStr, ∃ rep : Report,
      (generate_report oracle payloadC6).1 = Except.ok rep ∧
      rep.per_model.map Prod.fst = [ "m1".toList, "m2".toList ]) ∧
    lookupQueue (routePrompts payloadC6.prompts payloadC6.models) ("m1".toList) =
      [ "q".toList ] ∧
    lookupQueue (routePrompts payloadC6.prompts payloadC6.models) ("m2".toList) =
      [ "q".toList ] := by
  refine ⟨?_, ?_, by decide, by decide⟩
  · intro prompts models m
    rw [routePrompts, lookupQueue_routeGo]
    rfl
  · intro oracle
    exact ⟨_, rfl, rfl⟩

/-! ### generate_report: failure, trace and per_model keys -/

/-- Claim C2: a payload without "brand" fails with the missing-field
failure before any collaborator interaction (the trace is empty), and a
payload with "brand" never produces that failure. -/
theorem C2_missing_brand (oracle : PyStr → PyStr → PyStr) (payload : Payload) :
    (payload.brand = none →
      generate_report oracle payload =
        (Except.error (ReportError.missingField brandField), [])) ∧
    (∀ b, payload.brand = some b →
      ∀ k, (generate_report oracle payload).1 ≠
        Except.error (ReportError.missingField k)) := by
  constructor
  · intro hb
    simp only [generate_report, hb]
  · intro b hb k
    simp only [generate_report, hb, generateWithBrand]
    split
    · simp
    · split <;> simp

/-- Witness for C2 on the concrete brandless payload. -/
theorem C2_missing_brand_witness :
    generate_report (fun _ _ => []) payloadC2 =
      (Except.error (ReportError.missingField brandField), []) :=
  (C2_missing_brand (fun _ _ => []) payloadC2).1 rfl

theorem mem_keys_appendToQueue (l : List (PyStr × List PyStr)) (k v a : PyStr) :
    a ∈ (appendToQueue k v l).map Prod.fst ↔ a ∈ l.map Prod.fst ∨ a = k := by
  induction l with
  | nil => simp [appendToQueue]
  | cons kv rest ih =>
    by_cases hk : kv.1 = k
    · rw [appendToQueue, if_pos hk]
      simp only [List.map_cons, List.mem_cons, hk]
      tauto
    · rw [appendToQueue, if_neg hk]
      simp only [List.map_cons, List.mem_cons, ih]
      tauto

theorem invokeAll_keys (oracle : PyStr → PyStr → PyStr) (m : PyStr) (qs : List PyStr)
    (acc : List (PyStr × List PyStr) × List Event) (a : PyStr)
    (ha : a ∉ acc.1.map Prod.fst) (hne : a ≠ m) :
    a ∉ (invokeAll oracle m qs acc).1.map Prod.fst := by
  induction qs generalizing acc with
  | nil => exact ha
  | cons q qs ih =>
    refine ih _ ?_
    rw [mem_keys_appendToQueue]
    rintro (hc | hc)
    · exact ha hc
    · exact hne hc

theorem genAnswersGo_keys (oracle : PyStr → PyStr → PyStr)
    (queues : List (PyStr × List PyStr)) (models : List PyStr)
    (acc : List (PyStr × List PyStr) × List Event) (m : PyStr)
    (hq : lookupQueue queues m = []) (ha : m ∉ acc.1.map Prod.fst) :
    m ∉ (genAnswersGo oracle queues models acc).1.map Prod.fst := by
  induction models generalizing acc with
  | nil => exact ha
  | cons m0 ms ih =>
    rw [genAnswersGo]
    by_cases h0 : m0 = m
    · subst h0
      rw [hq]
      exact ih _ ha
    · exact ih _ (invokeAll_keys _ _ _ _ _ ha (fun he => h0 he.symm))

theorem invokeAll_events_mono (oracle : PyStr → PyStr → PyStr) (m : PyStr) (qs : List PyStr)
    (acc : List (PyStr × List PyStr) × List Event) (e : Event) (he : e ∈ acc.2) :
    e ∈ (invokeAll oracle m qs acc).2 := by
  induction qs generalizing acc with
  | nil => exact he
  | cons q qs ih => exact ih _ (List.mem_append_left _ he)

theorem genAnswersGo_events_mono (oracle : PyStr → PyStr → PyStr)
    (queues : List (PyStr × List PyStr)) (models : List PyStr)
    (acc : List (PyStr × List PyStr) × List Event) (e : Event) (he : e ∈ acc.2) :
    e ∈ (genAnswersGo oracle queues models acc).2 := by
  induction models generalizing acc with
  | nil => exact he
  | cons m0 ms ih =>
    exact ih _ (invokeAll_events_mono _ _ _ _ _ (List.mem_append_left _ he))

theorem genAnswersGo_getLLM (oracle : PyStr → PyStr → PyStr)
    (queues : List (PyStr × List PyStr)) (models : List PyStr)
    (acc : List (PyStr × List PyStr) × List Event) (m : PyStr) (hm : m ∈ models) :
    Event.getLLM m ∈ (genAnswersGo oracle queues models acc).2 := by
  induction models generalizing acc with
  | nil => cases hm
  | cons m0 ms ih =>
    rcases List.mem_cons.mp hm with rfl | hmem
    · rw [genAnswersGo]
      refine genAnswersGo_events_mono _ _ _ _ _ ?_
      refine invokeAll_events_mono _ _ _ _ _ ?_
      exact List.mem_append_right _ (List.mem_singleton.mpr rfl)
    · rw [genAnswersGo]
      exact ih _ hmem

theorem perModelReports_keys (brand : PyStr) (competitors personas topics : List PyStr)
    (abm : List (PyStr × List PyStr)) (pm : List (PyStr × VisibilityReport))
    (h : perModelReports brand competitors personas topics abm = some pm) :
    pm.map Prod.fst = abm.map Prod.fst := by
  induction abm generalizing pm with
  | nil =>
    rw [perModelReports] at h
    injection h with h
    subst h
    rfl
  | cons kv rest ih =>
    rw [perModelReports] at h
    split at h
    · cases h
    · split at h
      · cases h
      · injection h with h
        subst h
        rename_i pms _
        simp only [List.map_cons]
        rw [ih _ (by assumption)]

/-- Claim C9: a model in the model list with no prompts routed to it is
absent from per_model (it is not given an empty-batch report), even
though get_llm is still called for it. -/
theorem C9_unrouted_model_absent (oracle : PyStr → PyStr → PyStr) (payload : Payload)
    (brand : PyStr) (m : PyStr) (rep : Report)
    (hb : payload.brand = some brand) (hm : m ∈ payload.models)
    (hq : lookupQueue (routePrompts payload.prompts payload.models) m = [])
    (h : (generate_report oracle payload).1 = Except.ok rep) :
    m ∉ rep.per_model.map Prod.fst ∧
    Event.getLLM m ∈ (generate_report oracle payload).2 := by
  constructor
  · simp only [generate_report, hb, generateWithBrand] at h
    split at h
    · simp at h
    · split at h
      · simp at h
      · rename_i x pms hpm y comb hcomb
        injection h with h
        subst h
        intro hc
        have hc2 : m ∈ List.map Prod.fst pms := hc
        rw [perModelReports_keys _ _ _ _ _ _ hpm] at hc2
        exact genAnswersGo_keys _ _ _ _ _ hq (by simp) hc2
  · simp only [generate_report, hb, generateWithBrand]
    split
    · exact genAnswersGo_getLLM _ _ _ _ _ hm
    · split
      · exact genAnswersGo_getLLM _ _ _ _ _ hm
      · exact genAnswersGo_getLLM _ _ _ _ _ hm

/-- Witness for C9: with a prompt tagged only for m1, model m2 is absent
from per_model while get_llm("m2") still appears in the trace. -/
theorem C9_unrouted_model_absent_witness :
    ( "m2".toList) ∉ c9rep.per_model.map Prod.fst ∧
    Event.getLLM ("m2".toList) ∈ (generate_report oracleC9 payloadC9).2 :=
  C9_unrouted_model_absent oracleC9 payloadC9 ("b".toList) ("m2".toList) c9rep rfl
    (by decide) (by decide) rfl

/-! ### Combined mentions additivity -/

theorem lookupCount_brand_mentions (answers : List RawText) (brand : PyStr)
    (competitors personas topics : List PyStr) (r : VisibilityReport) (n : PyStr)
    (h : analyze_answers answers brand competitors personas topics = some r) :
    lookupCount r.brand_mentions n = mentionsTotal (brand :: competitors) answers n := by
  have hr := analyze_answers_some_spec _ _ _ _ _ _ h
  subst hr
  simp only [specReport]
  rw [lookupCount_sortDesc_mapCnt _ _ _ (dedupFirst_nodup _)]
  by_cases hn : n ∈ dedupFirst (brand :: competitors)
  · rw [if_pos hn]
  · rw [if_neg hn]
    have hnotin : n ∉ brand :: competitors := fun hc => hn ((dedupFirst_mem _ _).mpr hc)
    rw [mentionsTotal, List.count_eq_zero.mpr hnotin, Nat.zero_mul]

theorem mentionsTotal_append (allB : List PyStr) (xs ys : List RawText) (n : PyStr) :
    mentionsTotal allB (xs ++ ys) n = mentionsTotal allB xs n + mentionsTotal allB ys n := by
  simp [mentionsTotal, Nat.mul_add]

theorem perModelReports_mentions_sum (brand : PyStr) (competitors personas topics : List PyStr)
    (abm : List (PyStr × List PyStr)) (pm : List (PyStr × VisibilityReport)) (n : PyStr)
    (h : perModelReports brand competitors personas topics abm = some pm) :
    (pm.map (fun kv => lookupCount kv.2.brand_mentions n)).sum =
      mentionsTotal (brand :: competitors) ((allAnswers abm).map RawText.str) n := by
  induction abm generalizing pm with
  | nil =>
    rw [perModelReports] at h
    injection h with h
    subst h
    simp [allAnswers, mentionsTotal]
  | cons kv rest ih =>
    rw [perModelReports] at h
    split at h
    · cases h
    · split at h
      · cases h
      · rename_i x r hr y pms hpms
        injection h with h
        subst h
        rw [List.map_cons, List.sum_cons, ih _ hpms,
          show allAnswers (kv :: rest) = kv.2 ++ allAnswers rest from rfl,
          List.map_append, mentionsTotal_append,
          lookupCount_brand_mentions _ _ _ _ _ _ _ hr]

/-- Claim C4: for every accepted payload, the combined report's mentions
count for each vocabulary name is the sum of that name's counts over the
per-model reports (the combined batch is the concatenation of the
per-model batches, and mention counting is additive over batches). -/
theorem C4_combined_mentions_additive (oracle : PyStr → PyStr → PyStr) (payload : Payload)
    (brand : PyStr) (hb : payload.brand = some brand) (rep : Report)
    (h : (generate_report oracle payload).1 = Except.ok rep)
    (n : PyStr) (_hn : n ∈ brand :: payload.competitors) :
    lookupCount rep.combined.brand_mentions n =
      (rep.per_model.map (fun kv => lookupCount kv.2.brand_mentions n)).sum := by
  simp only [generate_report, hb, generateWithBrand] at h
  split at h
  · simp at h
  · split at h
    · simp at h
    · rename_i x pms hpms y comb hcomb
      injection h with h
      subst h
      have h1 : lookupCount comb.brand_mentions n =
          mentionsTotal (brand :: payload.competitors)
            ((allAnswers (genAnswersGo oracle (routePrompts payload.prompts payload.models)
              payload.models ([], [])).1).map RawText.str) n :=
        lookupCount_brand_mentions _ _ _ _ _ _ _ hcomb
      have h2 := perModelReports_mentions_sum _ _ _ _ _ _ n hpms
      exact h1.trans h2.symm

/-- Witness for C4 on a concrete run: one model answering "acme acme"
once, so the combined count (2) equals the sum over per_model ([2]). -/
theorem C4_combined_mentions_additive_witness :
    lookupCount c4rep.combined.brand_mentions ("acme".toList) =
      (c4rep.per_model.map (fun kv => lookupCount kv.2.brand_mentions ("acme".toList))).sum :=
  C4_combined_mentions_additive oracleC4 payloadC4 ("acme".toList) rfl c4rep rfl
    ("acme".toList) (List.mem_cons_self _ _)

end ReportPy
